import Mathlib

/-!
# Dashboard front end (`app.js`): a shallow embedding and its properties

The script has four entry points, all started from the `DOMContentLoaded`
handler: `loadSummary`, `loadTopStates`, `loadTopCities` (async functions that
fetch JSON and display it) and `initTable` (a plain function that hands an
option object to the `DataTable` widget).

Modelling conventions.
* A JavaScript number is a binary64 value. The finite ones are the rationals
  that `toBinary64` returns; every arithmetic operation rounds its exact result
  to the nearest binary64 value, a tie going to the even significand. Signed
  zero is not distinguished.
* The fields of the JSON responses are integers (the endpoints return counts).
* The method `toLocaleString` depends on the locale of the runtime; it is a
  parameter `fmt : Int → String` of every definition that calls it.
* The DOM is the list of `(element id, inner text)` assignments a function
  performs, in program order.
-/

namespace Dashboard

/-! ## JavaScript numbers, as far as `loadSummary` uses them -/

/-- A JavaScript number: a finite value, an infinity, or `NaN`. -/
inductive JsNum where
  | fin (q : ℚ)
  | posInf
  | negInf
  | nan
  deriving DecidableEq

/-- Result of `Math.round`: an integer, or the non-finite argument unchanged. -/
inductive Rounded where
  | int (n : Int)
  | posInf
  | negInf
  | nan
  deriving DecidableEq

/-- Round to the nearest integer, a tie going to the even one. -/
def roundHalfEven (x : ℚ) : Int :=
  if x - ⌊x⌋ < 1 / 2 then ⌊x⌋
  else if 1 / 2 < x - ⌊x⌋ then ⌊x⌋ + 1
  else if ⌊x⌋ % 2 = 0 then ⌊x⌋
  else ⌊x⌋ + 1

/-- Exponent of the unit in the last place of the binary64 values around `q`:
53 significant bits, the binade of the subnormal values being the lowest. -/
def ulpExponent (q : ℚ) : Int :=
  max (Int.log 2 |q|) (-1022) - 52

/-- Rounding of an exact result to binary64: the nearest multiple of the unit
in the last place, a tie going to the even one; a result that reaches
`2 ^ 1024` overflows to an infinity. -/
def toBinary64 (q : ℚ) : JsNum :=
  if 2 ^ 1024 ≤ (roundHalfEven (q / 2 ^ ulpExponent q) : ℚ) * 2 ^ ulpExponent q then
    JsNum.posInf
  else if (roundHalfEven (q / 2 ^ ulpExponent q) : ℚ) * 2 ^ ulpExponent q ≤ -(2 ^ 1024) then
    JsNum.negInf
  else JsNum.fin ((roundHalfEven (q / 2 ^ ulpExponent q) : ℚ) * 2 ^ ulpExponent q)

/-- JavaScript multiplication `a * b`. -/
def jsMul : JsNum → JsNum → JsNum
  | JsNum.fin a, JsNum.fin b => toBinary64 (a * b)
  | JsNum.nan, _ => JsNum.nan
  | _, JsNum.nan => JsNum.nan
  | JsNum.fin a, JsNum.posInf =>
    if a = 0 then JsNum.nan else if 0 < a then JsNum.posInf else JsNum.negInf
  | JsNum.fin a, JsNum.negInf =>
    if a = 0 then JsNum.nan else if 0 < a then JsNum.negInf else JsNum.posInf
  | JsNum.posInf, JsNum.fin b =>
    if b = 0 then JsNum.nan else if 0 < b then JsNum.posInf else JsNum.negInf
  | JsNum.negInf, JsNum.fin b =>
    if b = 0 then JsNum.nan else if 0 < b then JsNum.negInf else JsNum.posInf
  | JsNum.posInf, JsNum.posInf => JsNum.posInf
  | JsNum.posInf, JsNum.negInf => JsNum.negInf
  | JsNum.negInf, JsNum.posInf => JsNum.negInf
  | JsNum.negInf, JsNum.negInf => JsNum.posInf

/-- JavaScript division `a / b`: a division by zero does not throw, it yields
`Infinity`, `-Infinity` or `NaN` according to the sign of `a`. -/
def jsDiv : JsNum → JsNum → JsNum
  | JsNum.fin a, JsNum.fin b =>
    if b = 0 then
      if 0 < a then JsNum.posInf else if a < 0 then JsNum.negInf else JsNum.nan
    else toBinary64 (a / b)
  | JsNum.nan, _ => JsNum.nan
  | _, JsNum.nan => JsNum.nan
  | JsNum.fin _, JsNum.posInf => JsNum.fin 0
  | JsNum.fin _, JsNum.negInf => JsNum.fin 0
  | JsNum.posInf, JsNum.fin b => if 0 ≤ b then JsNum.posInf else JsNum.negInf
  | JsNum.negInf, JsNum.fin b => if 0 ≤ b then JsNum.negInf else JsNum.posInf
  | JsNum.posInf, JsNum.posInf => JsNum.nan
  | JsNum.posInf, JsNum.negInf => JsNum.nan
  | JsNum.negInf, JsNum.posInf => JsNum.nan
  | JsNum.negInf, JsNum.negInf => JsNum.nan

/-- The function `Math.round`: the nearest integer, a tie going to the larger
one (`Math.round(2.5)` is 3, `Math.round(-2.5)` is -2), that is `⌊x + 1/2⌋`;
a non-finite argument is returned unchanged. -/
def mathRound : JsNum → Rounded
  | JsNum.fin q => Rounded.int ⌊q + 1 / 2⌋
  | JsNum.posInf => Rounded.posInf
  | JsNum.negInf => Rounded.negInf
  | JsNum.nan => Rounded.nan

/-- The text a template literal produces for a rounded number: the decimal
digits of an integer (the form JavaScript uses below `10 ^ 21`), or the name of
the non-finite value. -/
def Rounded.toText : Rounded → String
  | Rounded.int n => toString n
  | Rounded.posInf => "Infinity"
  | Rounded.negInf => "-Infinity"
  | Rounded.nan => "NaN"

/-- The percentage of `loadSummary`, line 9:
`Math.round(100 * s.phones_present / s.total_records)`, the two fields being
the binary64 values of the integers in the response. -/
def phonePercent (phones_present total_records : Int) : Rounded :=
  mathRound (jsDiv (jsMul (JsNum.fin 100) (toBinary64 phones_present))
    (toBinary64 total_records))

/-! ## `loadSummary` -/

/-- The JSON body of `GET /api/summary`. -/
structure Summary where
  total_records : Int
  unique_states : Int
  unique_cities : Int
  unique_owners : Int
  phones_present : Int
  potential_duplicates : Int
  deriving DecidableEq

/-- The assignments `document.getElementById(id).innerText = text` performed by
`loadSummary` (lines 4 to 10) for the response `s`, in program order. -/
def loadSummary (fmt : Int → String) (s : Summary) : List (String × String) :=
  [ ("kpi-total", fmt s.total_records),
    ("kpi-states", fmt s.unique_states),
    ("kpi-cities", fmt s.unique_cities),
    ("kpi-owners", fmt s.unique_owners),
    ("kpi-phones",
      fmt s.phones_present ++ " (" ++
        (phonePercent s.phones_present s.total_records).toText ++ "%)"),
    ("kpi-dupes", fmt s.potential_duplicates) ]

/-- The text an element shows after a list of assignments: the last assignment
to that element wins; `none` when the element was never assigned. -/
def innerText (writes : List (String × String)) (id : String) : Option String :=
  List.lookup id writes.reverse

/-- A formatter without digit grouping, used for concrete evaluations. -/
def plainFormat (n : Int) : String := toString n

/-! ## `loadTopStates`, `loadTopCities` -/

/-- An entry of the `GET /api/top-states` response. -/
structure StateCount where
  State : String
  count : Int
  deriving DecidableEq

/-- An entry of the `GET /api/top-cities` response. -/
structure CityCount where
  City : String
  State : String
  count : Int
  deriving DecidableEq

/-- The single bar trace handed to `Plotly.newPlot`. -/
structure BarTrace where
  x : List String
  y : List Int
  deriving DecidableEq

/-- The trace built by `loadTopStates` (lines 16 and 17). -/
def loadTopStates (data : List StateCount) : BarTrace :=
  { x := data.map (fun d => d.State)
    y := data.map (fun d => d.count) }

/-- The trace built by `loadTopCities` (lines 28 and 29). -/
def loadTopCities (data : List CityCount) : BarTrace :=
  { x := data.map (fun d => d.City ++ " (" ++ d.State ++ ")")
    y := data.map (fun d => d.count) }

/-! ## `initTable` -/

/-- Sort direction of a sort directive. -/
inductive Direction where
  | asc
  | desc
  deriving DecidableEq

/-- A sort directive: a column index and a direction. -/
structure SortPair where
  column : Nat
  dir : Direction
  deriving DecidableEq

/-- Modelled from the spec: the query description the widget hands to the
`ajax.data` hook (the widget that builds it is a third-party library, absent
from the sources). The spec lists its content: pagination offset, page length,
global search text, the ordered sort pairs and the column-to-field mapping. -/
structure QueryDescription where
  offset : Nat
  pageLength : Nat
  searchText : String
  sort : List SortPair
  columnFields : List String
  deriving DecidableEq

/-- A column descriptor, `{ data: ... }`. -/
structure ColumnDescriptor where
  data : String
  deriving DecidableEq

/-- The `ajax` option: where to send the request, how, and the hook that maps
the widget's query description to the data that is sent. -/
structure AjaxOption (α : Type) where
  url : String
  type : String
  data : α → α

/-- The option object `initTable` passes to `new DataTable('#records', ...)`.
The type `α` is the representation of a query description; the hook in the
source is written without reference to it. -/
structure TableOptions (α : Type) where
  serverSide : Bool
  processing : Bool
  lengthMenu : List Nat
  ajax : AjaxOption α
  columns : List ColumnDescriptor
  order : List SortPair

/-- The options of `initTable` (lines 38 to 51). -/
def initTable (α : Type) : TableOptions α :=
  { serverSide := true
    processing := true
    lengthMenu := [10, 25, 50, 100]
    ajax := { url := "/api/table", type := "GET", data := fun d => d }
    columns :=
      [ { data := "Business Name" },
        { data := "Owner Name" },
        { data := "City" },
        { data := "State" },
        { data := "Mobile Number" } ]
    order := [] }

/-- The descriptor a column index resolves to, if any. -/
def resolveColumn {α : Type} (opts : TableOptions α) (i : Nat) : Option ColumnDescriptor :=
  opts.columns[i]?

/-- Every sort directive of the list resolves to a column descriptor. -/
def sortValid {α : Type} (opts : TableOptions α) (sort : List SortPair) : Bool :=
  sort.all (fun p => (resolveColumn opts p.column).isSome)

/-! ## The `DOMContentLoaded` handler -/

/-- The four functions the handler calls. -/
inductive Widget where
  | summary
  | topStates
  | topCities
  | table
  deriving DecidableEq

/-- How a function is declared: `async function` or `function`. -/
inductive FnKind where
  | async
  | plain
  deriving DecidableEq

/-- The declarations of lines 1, 13, 25 and 37. -/
def Widget.kind : Widget → FnKind
  | Widget.summary => FnKind.async
  | Widget.topStates => FnKind.async
  | Widget.topCities => FnKind.async
  | Widget.table => FnKind.plain

/-- Progress of one function. -/
inductive Status where
  | notStarted
  | pending
  | completed
  | failed
  deriving DecidableEq

/-- The page: the progress of each function. -/
abbrev Page := Widget → Status

/-- No function has been called yet. -/
def Page.initial : Page := fun _ => Status.notStarted

/-- Record the progress of one function. -/
def Page.set (pg : Page) (w : Widget) (s : Status) : Page :=
  fun u => if u = w then s else pg u

/-- The calls of the handler body, lines 55 to 58, in program order. -/
def handlerCalls : List Widget :=
  [Widget.summary, Widget.topStates, Widget.topCities, Widget.table]

/-- Run a sequence of call statements. `fails w` tells whether the body of `w`
hits an error (rejected fetch, malformed JSON, missing field, missing library).
A call of an `async function` returns a promise and never throws: the body is
left pending on its first `await` and the next statement runs. A call of a plain
function runs its body to the end; an exception it throws leaves the enclosing
handler, so the statements after it are not executed. -/
def runCalls (fails : Widget → Bool) : List Widget → Page → Page
  | [], pg => pg
  | w :: rest, pg =>
    match w.kind with
    | FnKind.async => runCalls fails rest (pg.set w Status.pending)
    | FnKind.plain =>
      if fails w then pg.set w Status.failed
      else runCalls fails rest (pg.set w Status.completed)

/-- One turn of the event loop: the pending body of `w` is resumed and runs to
its end or to its error. A body that is not pending is not resumed. -/
def settle (fails : Widget → Bool) (pg : Page) (w : Widget) : Page :=
  if pg w = Status.pending then
    pg.set w (if fails w then Status.failed else Status.completed)
  else pg

/-- The event loop resumes pending bodies in the order `sched` in which their
responses arrive. -/
def eventLoop (fails : Widget → Bool) (sched : List Widget) (pg : Page) : Page :=
  sched.foldl (settle fails) pg

/-- The page after the handler has run and the responses have arrived in the
order `sched`. -/
def runPage (fails : Widget → Bool) (sched : List Widget) : Page :=
  eventLoop fails sched (runCalls fails handlerCalls Page.initial)


/-! ## Concrete inputs used by the evaluations below -/

/-- A summary with one phone among two records. -/
def summaryHalf : Summary :=
  { total_records := 2, unique_states := 1, unique_cities := 1, unique_owners := 1,
    phones_present := 1, potential_duplicates := 0 }

/-- The same summary with four records instead of two. -/
def summaryQuarter : Summary :=
  { total_records := 4, unique_states := 1, unique_cities := 1, unique_owners := 1,
    phones_present := 1, potential_duplicates := 0 }

/-- Only `initTable` fails. -/
def onlyTableFails : Widget → Bool
  | Widget.table => true
  | _ => false

/-- The chart responses arrive before the summary response. -/
def chartsFirst : List Widget :=
  [Widget.topCities, Widget.topStates, Widget.summary]

/-- A record count just above `2 ^ 46`. -/
def largeTotal : Int := 70368744177799

/-- A phone count with `200 * largePhones = 199 * largeTotal - 1`. -/
def largePhones : Int := 70016900456910

/-! ## Binary64 rounding -/

theorem roundHalfEven_intCast (k : Int) : roundHalfEven (k : ℚ) = k := by
  unfold roundHalfEven
  simp

theorem roundHalfEven_error (x : ℚ) : |((roundHalfEven x : Int) : ℚ) - x| ≤ 1 / 2 := by
  have h1 : ((⌊x⌋ : Int) : ℚ) ≤ x := Int.floor_le x
  have h2 : x < ((⌊x⌋ : Int) : ℚ) + 1 := Int.lt_floor_add_one x
  unfold roundHalfEven
  rw [abs_le]
  split_ifs <;> push_cast <;> constructor <;> linarith

theorem roundHalfEven_eq_of_near (x : ℚ) (n : Int) (h1 : (n : ℚ) - 1 / 2 < x)
    (h2 : x < (n : ℚ) + 1 / 2) : roundHalfEven x = n := by
  have hf1 : ((⌊x⌋ : Int) : ℚ) ≤ x := Int.floor_le x
  have hf2 : x < ((⌊x⌋ : Int) : ℚ) + 1 := Int.lt_floor_add_one x
  have hlo : n - 1 ≤ ⌊x⌋ := by
    have h : ((n - 1 : Int) : ℚ) < ((⌊x⌋ + 1 : Int) : ℚ) := by push_cast; linarith
    have := (Int.cast_lt (R := ℚ)).mp h
    omega
  have hhi : ⌊x⌋ ≤ n := by
    have h : ((⌊x⌋ : Int) : ℚ) < ((n + 1 : Int) : ℚ) := by push_cast; linarith
    have := (Int.cast_lt (R := ℚ)).mp h
    omega
  unfold roundHalfEven
  rcases (show ⌊x⌋ = n ∨ ⌊x⌋ = n - 1 by omega) with h | h
  · rw [h, if_pos (by linarith)]
  · rw [h]
    have hx : ¬ (x - ((n - 1 : Int) : ℚ) < 1 / 2) := by push_cast; linarith
    have hx2 : 1 / 2 < x - ((n - 1 : Int) : ℚ) := by push_cast; linarith
    rw [if_neg hx, if_pos hx2]
    omega

theorem ulpExponent_le (q : ℚ) (m : Int) (hm : 0 ≤ m) (h : |q| < 2 ^ (m + 1)) :
    ulpExponent q ≤ m - 52 := by
  unfold ulpExponent
  have hlog : Int.log 2 |q| ≤ m := by
    rcases (abs_nonneg q).eq_or_lt with h0 | hpos
    · rw [← h0, Int.log_zero_right]
      exact hm
    · have := (Int.lt_zpow_iff_log_lt (R := ℚ) (b := 2) one_lt_two hpos (x := m + 1)).mp
        (by simpa using h)
      omega
  have : max (Int.log 2 |q|) (-1022) ≤ m := max_le hlog (by omega)
  omega

theorem ulpExponent_eq (q : ℚ) (m : Int) (hm : -1022 ≤ m) (h1 : 2 ^ m ≤ |q|)
    (h2 : |q| < 2 ^ (m + 1)) : ulpExponent q = m - 52 := by
  have hpos : 0 < |q| := lt_of_lt_of_le (by positivity) h1
  have hlt : Int.log 2 |q| < m + 1 :=
    (Int.lt_zpow_iff_log_lt (R := ℚ) (b := 2) one_lt_two hpos (x := m + 1)).mp (by simpa using h2)
  have hle : m ≤ Int.log 2 |q| :=
    (Int.zpow_le_iff_le_log (R := ℚ) (b := 2) one_lt_two hpos (x := m)).mp (by simpa using h1)
  unfold ulpExponent
  have : max (Int.log 2 |q|) (-1022) = m := by
    rw [max_eq_left (by omega)]
    omega
  omega

/-- A value that is an integer multiple of its unit in the last place, and
below the overflow threshold, is a binary64 value. -/
theorem toBinary64_exact (q : ℚ) (k : Int) (hk : q / 2 ^ ulpExponent q = (k : ℚ))
    (hlt : |q| < 2 ^ 1024) : toBinary64 q = JsNum.fin q := by
  have hu : (0 : ℚ) < 2 ^ ulpExponent q := by positivity
  have hr : ((roundHalfEven (q / 2 ^ ulpExponent q) : Int) : ℚ) * 2 ^ ulpExponent q = q := by
    rw [hk, roundHalfEven_intCast, ← hk]
    field_simp
  unfold toBinary64
  rw [hr]
  have h1 := (abs_lt.mp hlt).1
  have h2 := (abs_lt.mp hlt).2
  rw [if_neg (not_le.mpr h2), if_neg (by linarith)]

theorem div_ulp_intCast (q : ℚ) (j : Int) (n : Nat) (m : Int) (hm : 0 ≤ m)
    (hq : q * 2 ^ n = (j : ℚ)) (hbound : |q| < 2 ^ (m + 1)) (hn : (n : Int) + m ≤ 52) :
    ∃ k : Int, q / 2 ^ ulpExponent q = (k : ℚ) := by
  have he := ulpExponent_le q m hm hbound
  obtain ⟨d, hd⟩ := Int.eq_ofNat_of_zero_le (show (0 : Int) ≤ -ulpExponent q - n by omega)
  refine ⟨j * 2 ^ d, ?_⟩
  have he2 : ulpExponent q = -((n : Int) + (d : Int)) := by omega
  rw [he2, zpow_neg, div_inv_eq_mul, zpow_add₀ (by norm_num : (2 : ℚ) ≠ 0), zpow_natCast,
    zpow_natCast, ← mul_assoc, hq]
  push_cast
  ring

/-- Integers below `2 ^ 53` in absolute value are binary64 values. -/
theorem toBinary64_intCast (n : Int) (h : |n| < 2 ^ 53) : toBinary64 (n : ℚ) = JsNum.fin n := by
  have hq : |(n : ℚ)| < 2 ^ 53 := by exact_mod_cast h
  obtain ⟨k, hk⟩ := div_ulp_intCast (n : ℚ) n 0 52 (by norm_num) (by simp)
    (by norm_num; exact hq) (by norm_num)
  exact toBinary64_exact _ k hk (lt_trans hq (by norm_num))

/-- Below 128 the rounding error of a binary64 value is at most `2 ^ (-47)`,
and the multiples of one half are exact. -/
theorem toBinary64_small (q : ℚ) (h : |q| < 128) :
    ∃ r : ℚ, toBinary64 q = JsNum.fin r ∧ |r - q| ≤ 1 / 2 ^ 47 ∧
      ∀ j : Int, q * 2 = (j : ℚ) → r = q := by
  have hb : |q| < 2 ^ ((6 : Int) + 1) := by
    have h128 : (2 : ℚ) ^ ((6 : Int) + 1) = 128 := by norm_num
    rw [h128]; exact h
  have he := ulpExponent_le q 6 (by norm_num) hb
  have hu : (0 : ℚ) < 2 ^ ulpExponent q := by positivity
  have hule : (2 : ℚ) ^ ulpExponent q ≤ 1 / 2 ^ 46 := by
    have h46 : (2 : ℚ) ^ ulpExponent q ≤ 2 ^ (-46 : Int) :=
      zpow_le_zpow_right₀ (by norm_num) (by omega)
    refine le_trans h46 ?_
    rw [zpow_neg, one_div]
    norm_num
  have herr := roundHalfEven_error (q / 2 ^ ulpExponent q)
  set r : ℚ := ((roundHalfEven (q / 2 ^ ulpExponent q) : Int) : ℚ) * 2 ^ ulpExponent q with hr
  have hdiff : |r - q| ≤ 1 / 2 ^ 47 := by
    have h1 : r - q = (((roundHalfEven (q / 2 ^ ulpExponent q) : Int) : ℚ)
        - q / 2 ^ ulpExponent q) * 2 ^ ulpExponent q := by
      rw [hr]; field_simp
    rw [h1, abs_mul, abs_of_pos hu]
    calc |((roundHalfEven (q / 2 ^ ulpExponent q) : Int) : ℚ) - q / 2 ^ ulpExponent q|
          * 2 ^ ulpExponent q
        ≤ 1 / 2 * (1 / 2 ^ 46) := mul_le_mul herr hule (le_of_lt hu) (by norm_num)
      _ = 1 / 2 ^ 47 := by norm_num
  have hrabs : |r| < 2 ^ 1024 := by
    have h3 : |r| ≤ |r - q| + |q| := by
      have h5 := abs_add (r - q) q
      simpa using h5
    have h4 : |r| < 129 := by
      have h6 : (1 : ℚ) / 2 ^ 47 < 1 := by norm_num
      linarith
    exact lt_trans h4 (by norm_num)
  refine ⟨r, ?_, hdiff, ?_⟩
  · unfold toBinary64
    rw [← hr]
    have h1 := (abs_lt.mp hrabs).1
    have h2 := (abs_lt.mp hrabs).2
    rw [if_neg (not_le.mpr h2), if_neg (by linarith)]
  · intro j hj
    obtain ⟨k, hk⟩ := div_ulp_intCast q j 1 6 (by norm_num) (by simpa using hj) hb (by norm_num)
    rw [hr, hk, roundHalfEven_intCast, ← hk]
    field_simp

/-- A value in the binade `[2 ^ m, 2 ^ (m + 1))` rounds to the multiple `n` of
the unit in the last place that is nearer than half a unit. -/
theorem toBinary64_eq (q : ℚ) (m n : Int) (hm : -1022 ≤ m) (h1 : 2 ^ m ≤ |q|)
    (h2 : |q| < 2 ^ (m + 1)) (hn1 : (n : ℚ) - 1 / 2 < q / 2 ^ (m - 52))
    (hn2 : q / 2 ^ (m - 52) < (n : ℚ) + 1 / 2) (hlt : |(n : ℚ) * 2 ^ (m - 52)| < 2 ^ 1024) :
    toBinary64 q = JsNum.fin ((n : ℚ) * 2 ^ (m - 52)) := by
  unfold toBinary64
  rw [ulpExponent_eq q m hm h1 h2, roundHalfEven_eq_of_near _ n hn1 hn2]
  have h3 := (abs_lt.mp hlt).1
  have h4 := (abs_lt.mp hlt).2
  rw [if_neg (not_le.mpr h4), if_neg (by linarith)]

/-! ## The percentage of `loadSummary` -/

/-- Evaluation of `phonePercent` from the roundings of its three steps. -/
theorem phonePercent_eq_of (p t : Int) (r : ℚ) (n : Int)
    (hp : toBinary64 (p : ℚ) = JsNum.fin p) (ht : toBinary64 (t : ℚ) = JsNum.fin t)
    (ht0 : (t : ℚ) ≠ 0)
    (hm : toBinary64 ((100 : ℚ) * (p : ℚ)) = JsNum.fin ((100 : ℚ) * (p : ℚ)))
    (hq : toBinary64 ((100 : ℚ) * (p : ℚ) / (t : ℚ)) = JsNum.fin r)
    (hn : ⌊r + 1 / 2⌋ = n) : phonePercent p t = Rounded.int n := by
  unfold phonePercent
  rw [hp, ht]
  simp only [jsMul, hm, jsDiv, if_neg ht0, hq, mathRound, hn]

/-- Below `2 ^ 46` records the percentage is the exact quotient rounded half up. -/
theorem phonePercent_of_bounded (p t : Int) (ht : 0 < t) (htb : t < 2 ^ 46) (hp0 : 0 ≤ p)
    (hpt : p ≤ t) : phonePercent p t = Rounded.int ((200 * p + t) / (2 * t)) := by
  have hP : toBinary64 (p : ℚ) = JsNum.fin p :=
    toBinary64_intCast p (by rw [abs_of_nonneg hp0]; omega)
  have hT : toBinary64 (t : ℚ) = JsNum.fin t :=
    toBinary64_intCast t (by rw [abs_of_pos ht]; omega)
  have hM : toBinary64 ((100 : ℚ) * (p : ℚ)) = JsNum.fin (100 * (p : ℚ)) := by
    have h100 := toBinary64_intCast (100 * p) (by rw [abs_of_nonneg (by omega)]; omega)
    push_cast at h100
    exact h100
  have htq : (0 : ℚ) < (t : ℚ) := by exact_mod_cast ht
  have hpq0 : (0 : ℚ) ≤ (p : ℚ) := by exact_mod_cast hp0
  have hpq : (p : ℚ) ≤ (t : ℚ) := by exact_mod_cast hpt
  have htbq : (t : ℚ) < 2 ^ 46 := by exact_mod_cast htb
  set q : ℚ := 100 * (p : ℚ) / (t : ℚ) with hq
  have hq0 : 0 ≤ q := by rw [hq]; positivity
  have hq100 : q ≤ 100 := by
    rw [hq, div_le_iff₀ htq]; linarith
  obtain ⟨r, hr, herr, hexact⟩ := toBinary64_small q (by rw [abs_of_nonneg hq0]; linarith)
  refine phonePercent_eq_of p t r _ hP hT (ne_of_gt htq) hM hr ?_
  have hD : (0 : Int) < 2 * t := by omega
  have hdm := Int.emod_add_ediv (200 * p + t) (2 * t)
  have hm0 := Int.emod_nonneg (200 * p + t) (ne_of_gt hD)
  have hm1 := Int.emod_lt_of_pos (200 * p + t) hD
  set k : Int := (200 * p + t) / (2 * t) with hk
  set m : Int := (200 * p + t) % (2 * t) with hm
  have hDq : (0 : ℚ) < 2 * (t : ℚ) := by linarith
  have hqk : q + 1 / 2 = (k : ℚ) + (m : ℚ) / (2 * (t : ℚ)) := by
    have h1 : ((m + 2 * t * k : Int) : ℚ) = ((200 * p + t : Int) : ℚ) := by rw [hdm]
    push_cast at h1
    have h2 : q + 1 / 2 = (200 * (p : ℚ) + (t : ℚ)) / (2 * (t : ℚ)) := by
      rw [hq]
      field_simp
      ring
    rw [h2, ← h1]
    field_simp
    ring
  have heps : (1 : ℚ) / 2 ^ 47 < 1 / (2 * (t : ℚ)) := by
    apply one_div_lt_one_div_of_lt hDq
    have h47 : (2 : ℚ) ^ 47 = 2 * 2 ^ 46 := by norm_num
    rw [h47]; linarith
  have habs := abs_le.mp herr
  have hmq0 : (0 : ℚ) ≤ (m : ℚ) := by exact_mod_cast hm0
  have hmq1 : (m : ℚ) + 1 ≤ 2 * (t : ℚ) := by exact_mod_cast hm1
  have hupper : (m : ℚ) / (2 * (t : ℚ)) ≤ 1 - 1 / (2 * (t : ℚ)) := by
    rw [div_le_iff₀ hDq]
    field_simp
    linarith
  rw [Int.floor_eq_iff]
  constructor
  · rcases hm0.eq_or_lt with h0 | hpos
    · have hm' : (m : ℚ) = 0 := by exact_mod_cast h0.symm
      have hq2 : q * 2 = ((2 * k - 1 : Int) : ℚ) := by
        push_cast
        rw [hm', zero_div, add_zero] at hqk
        linarith
      have hrq := hexact (2 * k - 1) hq2
      rw [hrq, hqk, hm']
      simp
    · have hm1' : (1 : ℚ) ≤ (m : ℚ) := by exact_mod_cast hpos
      have hdiv : 1 / (2 * (t : ℚ)) ≤ (m : ℚ) / (2 * (t : ℚ)) := by
        apply div_le_div_of_nonneg_right hm1' (le_of_lt hDq)
      linarith [habs.1]
  · linarith [habs.2]

/-- With zero records the percentage is not an integer. -/
theorem phonePercent_zero (p n : Int) : phonePercent p 0 ≠ Rounded.int n := by
  have hT : toBinary64 ((0 : Int) : ℚ) = JsNum.fin 0 := by
    have h0 := toBinary64_intCast 0 (by norm_num)
    simpa using h0
  unfold phonePercent
  rw [hT]
  cases hP : toBinary64 (p : ℚ) with
  | fin a =>
    simp only [jsMul]
    cases hM : toBinary64 (100 * a) with
    | fin b =>
      simp only [jsDiv, if_true]
      split_ifs <;> simp [mathRound]
    | posInf => simp [jsDiv, mathRound]
    | negInf => simp [jsDiv, mathRound]
    | nan => simp [jsDiv, mathRound]
  | posInf => simp [jsMul, jsDiv, mathRound]
  | negInf => simp [jsMul, jsDiv, mathRound]
  | nan => simp [jsMul, jsDiv, mathRound]

/-- The integer quotient rounded half up: its range and its extreme values. -/
theorem halfUp_quotient_bounds (p t : Int) (ht : 0 < t) (hp0 : 0 ≤ p) (hpt : p ≤ t) :
    0 ≤ (200 * p + t) / (2 * t) ∧ (200 * p + t) / (2 * t) ≤ 100 ∧
      ((200 * p + t) / (2 * t) = 0 ↔ 200 * p < t) ∧
      ((200 * p + t) / (2 * t) = 100 ↔ 199 * t ≤ 200 * p) := by
  have h2t : (0 : Int) < 2 * t := by omega
  have hlt : (200 * p + t) / (2 * t) < 101 := by
    rw [Int.ediv_lt_iff_lt_mul h2t]
    nlinarith
  refine ⟨Int.ediv_nonneg (by omega) (by omega), by omega, ?_, ?_⟩
  · constructor
    · intro h
      have h1 := Int.lt_ediv_add_one_mul_self (200 * p + t) h2t
      rw [h] at h1
      omega
    · intro h
      exact Int.ediv_eq_zero_of_lt (by omega) (by omega)
  · constructor
    · intro h
      have h1 := Int.ediv_mul_le (200 * p + t) (ne_of_gt h2t)
      rw [h] at h1
      omega
    · intro h
      apply le_antisymm
      · omega
      · rw [Int.le_ediv_iff_mul_le h2t]
        omega

/-- The quotient `100 * largePhones / largeTotal` lies less than half a unit in
the last place below 99.5, so the division returns 99.5. -/
theorem large_quotient_rounds_to_half :
    toBinary64 ((100 : ℚ) * ((70016900456910 : Int) : ℚ) / ((70368744177799 : Int) : ℚ))
      = JsNum.fin (199 / 2) := by
  have h := toBinary64_eq ((7001690045691000 : ℚ) / 70368744177799) 6 (199 * 2 ^ 45)
      (by norm_num) (by norm_num [abs_of_pos]) (by norm_num [abs_of_pos])
      (by norm_num) (by norm_num) (by norm_num [abs_of_pos])
  have e1 : (100 : ℚ) * ((70016900456910 : Int) : ℚ) / ((70368744177799 : Int) : ℚ)
      = (7001690045691000 : ℚ) / 70368744177799 := by norm_num
  have e2 : (((199 * 2 ^ 45 : Int)) : ℚ) * 2 ^ ((6 : Int) - 52) = 199 / 2 := by norm_num
  rw [e1, h, e2]

theorem largePhones_binary64 :
    toBinary64 ((70016900456910 : Int) : ℚ) = JsNum.fin ((70016900456910 : Int) : ℚ) :=
  toBinary64_intCast _ (by norm_num)

theorem largeTotal_binary64 :
    toBinary64 ((70368744177799 : Int) : ℚ) = JsNum.fin ((70368744177799 : Int) : ℚ) :=
  toBinary64_intCast _ (by norm_num)

theorem largeProduct_binary64 :
    toBinary64 ((100 : ℚ) * ((70016900456910 : Int) : ℚ))
      = JsNum.fin ((100 : ℚ) * ((70016900456910 : Int) : ℚ)) := by
  have h := toBinary64_intCast (100 * 70016900456910) (by norm_num)
  rw [Int.cast_mul] at h
  exact h

theorem largeTotal_ne_zero : ((70368744177799 : Int) : ℚ) ≠ 0 := by norm_num

theorem floor_of_half_up : ⌊(199 : ℚ) / 2 + 1 / 2⌋ = 100 := by
  rw [Int.floor_eq_iff]; norm_num

/-! ## The option object of `initTable` -/

/-- The page sizes offered by the table. -/
theorem initTable_lengthMenu (α : Type) : (initTable α).lengthMenu = [10, 25, 50, 100] := rfl

/-- The five descriptors, in display order. -/
theorem initTable_columns (α : Type) :
    (initTable α).columns.map (fun c => c.data)
      = ["Business Name", "Owner Name", "City", "State", "Mobile Number"] := rfl

/-- A column index resolves to a descriptor exactly when it is one of 0 to 4. -/
theorem resolveColumn_isSome_iff (α : Type) (i : Nat) :
    (resolveColumn (initTable α) i).isSome = true ↔ i < 5 := by
  unfold resolveColumn
  rw [Option.isSome_iff_exists]
  constructor
  · rintro ⟨c, hc⟩
    have h := (List.getElem?_eq_some.mp hc).1
    simpa [initTable] using h
  · intro h
    have hlen : i < (initTable α).columns.length := by simpa [initTable] using h
    exact ⟨(initTable α).columns[i], List.getElem?_eq_getElem hlen⟩

/-- The initial sort state is empty, so each of its directives resolves. -/
theorem initTable_order_valid (α : Type) :
    (initTable α).order = [] ∧ sortValid (initTable α) (initTable α).order = true :=
  ⟨rfl, rfl⟩

/-- The validity check is not vacuous: index 4 resolves, index 5 does not. -/
theorem sortValid_examples :
    sortValid (initTable QueryDescription) [⟨4, Direction.desc⟩] = true ∧
    sortValid (initTable QueryDescription) [⟨5, Direction.asc⟩] = false := by
  constructor <;> rfl

/-! ## The `DOMContentLoaded` handler -/

/-- The page when the handler body has been left, before any response arrives. -/
theorem runCalls_handler (fails : Widget → Bool) (w : Widget) :
    runCalls fails handlerCalls Page.initial w =
      match w.kind with
      | FnKind.async => Status.pending
      | FnKind.plain => if fails w then Status.failed else Status.completed := by
  cases w <;> cases h : fails Widget.table <;>
    simp [runCalls, handlerCalls, Widget.kind, Page.set, Page.initial, h]

theorem settle_other (fails : Widget → Bool) (pg : Page) (u w : Widget) (h : w ≠ u) :
    settle fails pg u w = pg w := by
  unfold settle
  split_ifs <;> simp [Page.set, h]

theorem settle_self (fails : Widget → Bool) (pg : Page) (w : Widget) :
    settle fails pg w w =
      if pg w = Status.pending then (if fails w then Status.failed else Status.completed)
      else pg w := by
  unfold settle
  split_ifs <;> simp [Page.set]

/-- The event loop leaves a function that is not pending as it is. -/
theorem eventLoop_not_pending (fails : Widget → Bool) (sched : List Widget) (pg : Page)
    (w : Widget) (h : pg w ≠ Status.pending) : eventLoop fails sched pg w = pg w := by
  induction sched generalizing pg with
  | nil => rfl
  | cons u rest ih =>
    simp only [eventLoop, List.foldl_cons]
    have hu : settle fails pg u w = pg w := by
      by_cases huw : w = u
      · subst huw
        rw [settle_self, if_neg h]
      · exact settle_other fails pg u w huw
    have hrest := ih (settle fails pg u) (by rw [hu]; exact h)
    simp only [eventLoop] at hrest
    rw [hrest, hu]

/-- A pending function whose response arrives ends by its own outcome. -/
theorem eventLoop_pending (fails : Widget → Bool) (sched : List Widget) (pg : Page)
    (w : Widget) (h : pg w = Status.pending) (hw : w ∈ sched) :
    eventLoop fails sched pg w = if fails w then Status.failed else Status.completed := by
  induction sched generalizing pg with
  | nil => simp at hw
  | cons u rest ih =>
    simp only [eventLoop, List.foldl_cons]
    by_cases huw : w = u
    · subst huw
      have hs : settle fails pg w w = if fails w then Status.failed else Status.completed := by
        rw [settle_self, if_pos h]
      have hnp : settle fails pg w w ≠ Status.pending := by
        rw [hs]; split_ifs <;> simp
      have hrest := eventLoop_not_pending fails rest (settle fails pg w) w hnp
      simp only [eventLoop] at hrest
      rw [hrest, hs]
    · have hu : settle fails pg u w = pg w := settle_other fails pg u w huw
      have hmem : w ∈ rest := by
        rcases List.mem_cons.mp hw with h1 | h1
        · exact absurd h1 huw
        · exact h1
      have hrest := ih (settle fails pg u) (by rw [hu]; exact h) hmem
      simp only [eventLoop] at hrest
      exact hrest

/-- The event loop leaves a function whose response does not arrive as it is. -/
theorem eventLoop_not_scheduled (fails : Widget → Bool) (sched : List Widget) (pg : Page)
    (w : Widget) (hw : w ∉ sched) : eventLoop fails sched pg w = pg w := by
  induction sched generalizing pg with
  | nil => rfl
  | cons u rest ih =>
    simp only [eventLoop, List.foldl_cons]
    have huw : w ≠ u := fun h => hw (by rw [h]; exact List.mem_cons_self u rest)
    have hrest := ih (settle fails pg u) (fun h => hw (List.mem_cons_of_mem u h))
    simp only [eventLoop] at hrest
    rw [hrest, settle_other fails pg u w huw]

/-- The final progress of each function: a loader whose response has not
arrived is still pending, every other function has ended by its own outcome. -/
theorem runPage_eq (fails : Widget → Bool) (sched : List Widget) (w : Widget) :
    runPage fails sched w =
      if w.kind = FnKind.async ∧ w ∉ sched then Status.pending
      else if fails w then Status.failed else Status.completed := by
  unfold runPage
  by_cases hk : w.kind = FnKind.async
  · by_cases hw : w ∈ sched
    · rw [if_neg (fun h => h.2 hw)]
      apply eventLoop_pending fails sched _ w _ hw
      rw [runCalls_handler, hk]
    · rw [if_pos ⟨hk, hw⟩, eventLoop_not_scheduled fails sched _ w hw, runCalls_handler, hk]
  · have hp : w.kind = FnKind.plain := by
      cases h : w.kind with
      | async => exact absurd h hk
      | plain => rfl
    have hnp : runCalls fails handlerCalls Page.initial w ≠ Status.pending := by
      rw [runCalls_handler, hp]
      split_ifs <;> simp
    rw [if_neg (fun h => hk h.1), eventLoop_not_pending fails sched _ w hnp,
      runCalls_handler, hp]

/-- The order of the calls matters: were the plain function called first, its
exception would keep the three loaders from being started. -/
theorem plain_call_first_skips_rest :
    runCalls onlyTableFails
      [Widget.table, Widget.summary, Widget.topStates, Widget.topCities]
      Page.initial Widget.summary = Status.notStarted := by
  decide

/-! ## The claims -/

/-- Claim C5: the `ajax.data` hook of `initTable` is the identity. Whatever the
representation of the query description, the hook returns it unchanged, so
whatever is done with the hook's result afterwards (`send`, any function) gives
what it gives on the query description itself: the hook adds, removes and
changes nothing in the query that is sent. For a description built from a page
request each component (offset, page length, search text, sort pairs, column
mapping) is unchanged, and for a flat key-value list the keys, their order and
the value under every key are unchanged. -/
theorem ajax_data_hook_is_identity :
    (∀ (α : Type) (d : α), (initTable α).ajax.data d = d) ∧
    (∀ (α β : Type) (send : α → β) (d : α), send ((initTable α).ajax.data d) = send d) ∧
    (∀ d : QueryDescription,
      ((initTable QueryDescription).ajax.data d).offset = d.offset ∧
      ((initTable QueryDescription).ajax.data d).pageLength = d.pageLength ∧
      ((initTable QueryDescription).ajax.data d).searchText = d.searchText ∧
      ((initTable QueryDescription).ajax.data d).sort = d.sort ∧
      ((initTable QueryDescription).ajax.data d).columnFields = d.columnFields) ∧
    (∀ d : List (String × String),
      ((initTable (List (String × String))).ajax.data d).map (fun kv => kv.1)
        = d.map (fun kv => kv.1) ∧
      ∀ k : String, List.lookup k ((initTable (List (String × String))).ajax.data d)
        = List.lookup k d) :=
  ⟨fun _ _ => rfl, fun _ _ _ _ => rfl, fun _ => ⟨rfl, rfl, rfl, rfl, rfl⟩,
    fun _ => ⟨rfl, fun _ => rfl⟩⟩

/-- Claim C7: error isolation in the handler. For every combination of failures
of the four functions, each of them is started by the handler; for every order
in which responses arrive, a function whose response has arrived (and
`initTable`, which waits for none) ends completed exactly when its own body
does not fail and failed exactly when it does; and the progress of a function
is the same under any other combination of failures that agrees on this
function, so a failure of one never changes what happens to another. -/
theorem handler_error_isolation (fails : Widget → Bool) (sched : List Widget) :
    (∀ w : Widget, runCalls fails handlerCalls Page.initial w ≠ Status.notStarted) ∧
    (∀ w : Widget, runPage fails sched w =
      if w.kind = FnKind.async ∧ w ∉ sched then Status.pending
      else if fails w then Status.failed else Status.completed) ∧
    (∀ (fails' : Widget → Bool) (w : Widget), fails' w = fails w →
      runPage fails' sched w = runPage fails sched w) := by
  refine ⟨?_, runPage_eq fails sched, ?_⟩
  · intro w
    rw [runCalls_handler]
    cases w <;> simp only [Widget.kind] <;> (try split_ifs) <;> simp
  · intro fails' w h
    rw [runPage_eq fails' sched, runPage_eq fails sched, h]

/-- Evaluation for C7: `initTable` fails and the chart responses arrive first;
the three loaders complete and `initTable` alone is failed. -/
theorem handler_error_isolation_witness :
    runPage onlyTableFails chartsFirst Widget.summary = Status.completed ∧
    runPage onlyTableFails chartsFirst Widget.topStates = Status.completed ∧
    runPage onlyTableFails chartsFirst Widget.topCities = Status.completed ∧
    runPage onlyTableFails chartsFirst Widget.table = Status.failed := by
  have h := (handler_error_isolation onlyTableFails chartsFirst).2.1
  exact ⟨by rw [h]; decide, by rw [h]; decide, by rw [h]; decide, by rw [h]; decide⟩

/-- Claim C8, as stated, fails for `kpi-phones`: two responses with the same
`phones_present` (1) and different `total_records` (2 and 4) give different
texts, "1 (50%)" and "1 (25%)", neither of which is the value of the field. -/
theorem kpi_phones_depends_on_total_records :
    summaryHalf.phones_present = summaryQuarter.phones_present ∧
    plainFormat summaryHalf.phones_present = "1" ∧
    innerText (loadSummary plainFormat summaryHalf) "kpi-phones" = some "1 (50%)" ∧
    innerText (loadSummary plainFormat summaryQuarter) "kpi-phones" = some "1 (25%)" := by
  have h50 : phonePercent 1 2 = Rounded.int 50 := by
    have h := phonePercent_of_bounded 1 2 (by norm_num) (by norm_num) (by norm_num) (by norm_num)
    simpa using h
  have h25 : phonePercent 1 4 = Rounded.int 25 := by
    have h := phonePercent_of_bounded 1 4 (by norm_num) (by norm_num) (by norm_num) (by norm_num)
    simpa using h
  refine ⟨rfl, by decide, ?_, ?_⟩
  · have e : innerText (loadSummary plainFormat summaryHalf) "kpi-phones"
        = some (plainFormat 1 ++ " (" ++ (phonePercent 1 2).toText ++ "%)") := rfl
    rw [e, h50]
    decide
  · have e : innerText (loadSummary plainFormat summaryQuarter) "kpi-phones"
        = some (plainFormat 1 ++ " (" ++ (phonePercent 1 4).toText ++ "%)") := rfl
    rw [e, h25]
    decide

/-- Claim C8, amended: for every response and every locale formatter, the
elements `kpi-total`, `kpi-states`, `kpi-cities`, `kpi-owners` and `kpi-dupes`
show the formatted value of `total_records`, `unique_states`, `unique_cities`,
`unique_owners` and `potential_duplicates`, each depending on no other field;
`kpi-phones` shows the formatted `phones_present` followed by the rounded
percentage of `phones_present` in `total_records` between " (" and "%)". -/
theorem loadSummary_element_texts (fmt : Int → String) (s : Summary) :
    innerText (loadSummary fmt s) "kpi-total" = some (fmt s.total_records) ∧
    innerText (loadSummary fmt s) "kpi-states" = some (fmt s.unique_states) ∧
    innerText (loadSummary fmt s) "kpi-cities" = some (fmt s.unique_cities) ∧
    innerText (loadSummary fmt s) "kpi-owners" = some (fmt s.unique_owners) ∧
    innerText (loadSummary fmt s) "kpi-dupes" = some (fmt s.potential_duplicates) ∧
    innerText (loadSummary fmt s) "kpi-phones" =
      some (fmt s.phones_present ++ " (" ++
        (phonePercent s.phones_present s.total_records).toText ++ "%)") :=
  ⟨rfl, rfl, rfl, rfl, rfl, rfl⟩

/-- Claim C9: the bar series keep the order and the length of the response.
For every response, `x` and `y` have the length of `data`, and at every index
`y` holds the `count` of the entry, `x` holds its `State` in `loadTopStates`
and its `City` followed by " (", its `State` and ")" in `loadTopCities`; past
the end of `data` the series have no entry either. -/
theorem chart_series_preserve_response (states : List StateCount) (cities : List CityCount) :
    (loadTopStates states).x.length = states.length ∧
    (loadTopStates states).y.length = states.length ∧
    (∀ i : Nat, (loadTopStates states).x[i]? = states[i]?.map (fun d => d.State)) ∧
    (∀ i : Nat, (loadTopStates states).y[i]? = states[i]?.map (fun d => d.count)) ∧
    (loadTopCities cities).x.length = cities.length ∧
    (loadTopCities cities).y.length = cities.length ∧
    (∀ i : Nat, (loadTopCities cities).x[i]? =
      cities[i]?.map (fun d => d.City ++ " (" ++ d.State ++ ")")) ∧
    (∀ i : Nat, (loadTopCities cities).y[i]? = cities[i]?.map (fun d => d.count)) := by
  simp [loadTopStates, loadTopCities, List.getElem?_map]

/-- Claim C10, as stated, fails above `2 ^ 46` records. With
`total_records = 70368744177799` and `phones_present = 70016900456910` the
precondition holds, the exact quotient is 99.5 less `1 / (2 * total_records)`,
the division rounds it to the binary64 value 99.5 and `Math.round` returns
100, while `floor((200 * p + t) / (2 * t))` is 99 and `200 * p < 199 * t`. -/
theorem phonePercent_exceeds_formula_above_2_pow_46 :
    0 < largeTotal ∧ 0 ≤ largePhones ∧ largePhones ≤ largeTotal ∧
    phonePercent largePhones largeTotal = Rounded.int 100 ∧
    (200 * largePhones + largeTotal) / (2 * largeTotal) = 99 ∧
    ¬ (199 * largeTotal ≤ 200 * largePhones) := by
  refine ⟨by decide, by decide, by decide, ?_, by decide, by decide⟩
  exact phonePercent_eq_of 70016900456910 70368744177799 (199 / 2) 100
    largePhones_binary64 largeTotal_binary64 largeTotal_ne_zero largeProduct_binary64
    large_quotient_rounds_to_half floor_of_half_up

/-- Claim C10, amended: for all integers with `0 < total_records < 2 ^ 46` and
`0 ≤ phones_present ≤ total_records` the percentage is an integer in 0 to 100
equal to `floor((200 * p + t) / (2 * t))`; it is 0 exactly when
`200 * p < t` and 100 exactly when `200 * p ≥ 199 * t`. With
`total_records = 0` the result is not an integer. -/
theorem phonePercent_contract :
    (∀ p t : Int, 0 < t → t < 2 ^ 46 → 0 ≤ p → p ≤ t →
      ∃ n : Int, phonePercent p t = Rounded.int n ∧ 0 ≤ n ∧ n ≤ 100 ∧
        n = (200 * p + t) / (2 * t) ∧
        (n = 0 ↔ 200 * p < t) ∧ (n = 100 ↔ 199 * t ≤ 200 * p)) ∧
    (∀ p n : Int, phonePercent p 0 ≠ Rounded.int n) := by
  refine ⟨?_, phonePercent_zero⟩
  intro p t ht htb hp0 hpt
  obtain ⟨h0, h100, hz, hh⟩ := halfUp_quotient_bounds p t ht hp0 hpt
  exact ⟨_, phonePercent_of_bounded p t ht htb hp0 hpt, h0, h100, rfl, hz, hh⟩

/-- Witness for C10: one phone among eight records is shown as 13 percent
(12.5 rounded half up). -/
theorem phonePercent_contract_witness : phonePercent 1 8 = Rounded.int 13 := by
  obtain ⟨n, hn, _, _, hdef, _, _⟩ :=
    phonePercent_contract.1 1 8 (by norm_num) (by norm_num) (by norm_num) (by norm_num)
  have h13 : n = 13 := by rw [hdef]; norm_num
  rw [hn, h13]

end Dashboard
